import Mathlib

/-!
Verification of the VideoStreamer web application core against its design
specification.  The development shallowly embeds the relevant parts of
`webapp/app.py`:

* the path resolver `_resolve_subpath` and the thumbnail cache-path
  derivation `_thumbnail_path` (both pure functions over the request
  subpath, embedded from the source);
* the HTTP byte-range handling of `GET /video/<subpath>`: the source
  delegates range parsing and partial-content framing to the web
  framework's `send_file(..., conditional=True)`, whose behaviour is not
  part of this repository, so the range parser and response builder are
  modelled from the specification (sections 4.2 and 4.3);
* the thumbnail route and `_generate_thumbnail`, embedded as an explicit
  state-passing function over a small environment describing the
  filesystem facts the handler consults (modification times, existing
  thumbnail, subprocess outcome).

Subpaths are represented by `String` at the interface, and are analysed as
their character lists; path segments are `List Char` values.
-/

/-! ### Path segmentation, following `pathlib.PurePosixPath` -/

/-- Splits a character list at every `'/'`.  Produces the raw
slash-separated segments of the request subpath, possibly including empty
segments (from leading, trailing or doubled slashes). -/
def splitSlash : List Char → List (List Char)
  | [] => [[]]
  | c :: cs =>
    let r := splitSlash cs
    if c = '/' then [] :: r
    else
      match r with
      | [] => [[c]]
      | g :: gs => (c :: g) :: gs

/-- The path segments of a relative subpath as `PurePosixPath(subpath).parts`
computes them: split at `'/'`, then drop empty segments and single-dot
segments.  `".."` segments are preserved. -/
def pathParts (cs : List Char) : List (List Char) :=
  (splitSlash cs).filter (fun seg => decide (seg ≠ [] ∧ seg ≠ ['.']))

/-- Whether the subpath begins with `'/'`; this is exactly
`PurePosixPath(subpath).is_absolute()` for a POSIX path string. -/
def startsWithSlash : List Char → Bool
  | '/' :: _ => true
  | _ => false

/-- Embedding of `_resolve_subpath` from `webapp/app.py`.  The media root is
an abstract list of path segments.  `none` models the `abort(404)` branch:
the function aborts, before any filesystem access, when the subpath is
absolute or one of its segments is `".."`; otherwise it joins the root with
the surviving segments. -/
def resolveSubpath (root : List (List Char)) (subpath : String) : Option (List (List Char)) :=
  if subpath.data = [] then some root
  else
    let parts := pathParts subpath.data
    if startsWithSlash subpath.data = true ∨ ['.', '.'] ∈ parts then none
    else some (root ++ parts)

/-! ### Basic lemmas about segmentation -/

/-- Every segment produced by `pathParts` is a nonempty, non-`"."` raw
slash-separated segment of the input. -/
theorem mem_pathParts {cs : List Char} {seg : List Char} (h : seg ∈ pathParts cs) :
    seg ∈ splitSlash cs ∧ seg ≠ [] ∧ seg ≠ ['.'] := by
  unfold pathParts at h
  have h' := List.mem_filter.mp h
  refine ⟨h'.1, ?_⟩
  simpa using of_decide_eq_true h'.2

/-- A raw `".."` segment survives the `pathParts` filter. -/
theorem dotdot_mem_pathParts {cs : List Char} (h : ['.', '.'] ∈ splitSlash cs) :
    ['.', '.'] ∈ pathParts cs := by
  unfold pathParts
  exact List.mem_filter.mpr ⟨h, by decide⟩

/-- If the raw slash-split of a subpath contains a `".."` segment, or the
subpath begins with `'/'`, then `_resolve_subpath` aborts with 404. -/
theorem resolveSubpath_rejects {root : List (List Char)} {subpath : String}
    (h : ['.', '.'] ∈ splitSlash subpath.data ∨ startsWithSlash subpath.data = true) :
    resolveSubpath root subpath = none := by
  unfold resolveSubpath
  have hne : subpath.data ≠ [] := by
    intro hnil
    rcases h with h | h
    · rw [hnil] at h; simp [splitSlash] at h
    · rw [hnil] at h; simp [startsWithSlash] at h
  rw [if_neg hne, if_pos]
  rcases h with h | h
  · exact Or.inr (dotdot_mem_pathParts h)
  · exact Or.inl h

/-- Whatever `_resolve_subpath` returns extends the media root by the
filtered segments of the subpath: the result is the root followed by
segments none of which is `".."` or empty, so the resolved path never
escapes the root lexically. -/
theorem resolveSubpath_contained {root : List (List Char)} {subpath : String}
    {r : List (List Char)} (h : resolveSubpath root subpath = some r) :
    ∃ rest, r = root ++ rest ∧ ∀ seg ∈ rest, seg ≠ ['.', '.'] ∧ seg ≠ [] := by
  unfold resolveSubpath at h
  by_cases hnil : subpath.data = []
  · rw [if_pos hnil] at h
    exact ⟨[], by simpa using h.symm, by simp⟩
  · rw [if_neg hnil] at h
    by_cases hbad : startsWithSlash subpath.data = true ∨ ['.', '.'] ∈ pathParts subpath.data
    · rw [if_pos hbad] at h; cases h
    · rw [if_neg hbad] at h
      refine ⟨pathParts subpath.data, (Option.some_injective _ h).symm, ?_⟩
      intro seg hseg
      have hs := mem_pathParts hseg
      refine ⟨?_, hs.2.1⟩
      intro hdd
      exact hbad (Or.inr (hdd ▸ hseg))

/-! ### Range parser, modelled from the specification

The source's `_range_stream` hands the request to the web framework's
`send_file(..., conditional=True)`; the range grammar and the 206/416
response framing are therefore not code of this repository.  The
definitions below are modelled from the specification, sections 4.2
(Range Parser) and 4.3 (Byte Stream Server) and section 7 (error design). -/

/-- The numeric value of a decimal digit character, `none` otherwise. -/
def digitVal? (c : Char) : Option Nat :=
  if '0' ≤ c ∧ c ≤ '9' then some (c.toNat - 48) else none

/-- Left-to-right accumulation of decimal digits; fails on the first
non-digit character. -/
def parseDigitsFrom (acc : Nat) : List Char → Option Nat
  | [] => some acc
  | c :: cs =>
    match digitVal? c with
    | some d => parseDigitsFrom (acc * 10 + d) cs
    | none => none

/-- Modelled from the spec: integer field of a range header.  Empty or
non-numeric text is malformed (`none`). -/
def parseDigits : List Char → Option Nat
  | [] => none
  | c :: cs => parseDigitsFrom 0 (c :: cs)

/-- Splits a character list at its first `'-'`, returning the text on each
side; `none` when no dash occurs. -/
def splitDash : List Char → Option (List Char × List Char)
  | [] => none
  | c :: cs =>
    if c = '-' then some ([], cs)
    else
      match splitDash cs with
      | none => none
      | some (a, b) => some (c :: a, b)

/-- Outcome of parsing a `Range` header against a known file size, as the
specification's `parse(rangeHeader, fileSize)` contract describes it. -/
inductive RangeResult where
  | satisfiable (s e : Nat)
  | unsatisfiable
  | notARange
deriving DecidableEq, Repr

/-- Modelled from the spec: the range specification after the `bytes=`
unit token.  Forms `start-end`, `start-` and `-suffixLength`; malformed
integers reject as unsatisfiable; a start at or past the file size rejects;
an overshooting end is clamped to `fileSize - 1`; a suffix length of zero
rejects. -/
def parseRangeSpec (rest : List Char) (fileSize : Nat) : RangeResult :=
  match splitDash rest with
  | none => .unsatisfiable
  | some (first, second) =>
    if first = [] then
      match parseDigits second with
      | none => .unsatisfiable
      | some suffix =>
        if suffix = 0 then .unsatisfiable
        else if fileSize = 0 then .unsatisfiable
        else .satisfiable (fileSize - suffix) (fileSize - 1)
    else
      match parseDigits first with
      | none => .unsatisfiable
      | some s =>
        match (if second = [] then some (fileSize - 1) else parseDigits second) with
        | none => .unsatisfiable
        | some en =>
          if fileSize ≤ s then .unsatisfiable
          else if en < s then .unsatisfiable
          else .satisfiable s (min en (fileSize - 1))

/-- Modelled from the spec: full range-header parse.  A header that does
not begin with the literal unit token `bytes=`, or that contains a comma
(multiple ranges), is not a range request and is treated as absent. -/
def parseRange (header : String) (fileSize : Nat) : RangeResult :=
  if ',' ∈ header.data then .notARange
  else if header.data.take 6 = ['b', 'y', 't', 'e', 's', '='] then
    parseRangeSpec (header.data.drop 6) fileSize
  else .notARange

/-- The observable part of one HTTP response: status code, body bytes, the
`Content-Range` header when present, and the `Content-Length` value. -/
structure HttpResponse where
  status : Nat
  body : List Nat
  contentRange : Option String
  contentLength : Nat
deriving DecidableEq, Repr

/-- A full unranged 200 transfer of the whole file. -/
def fullResponse (content : List Nat) : HttpResponse :=
  { status := 200, body := content, contentRange := none, contentLength := content.length }

/-- Modelled from the spec: response of the byte stream server for a file
with the given bytes under an optional `Range` header.  `notARange` falls
back to the full transfer; `unsatisfiable` yields 416 with
`Content-Range: bytes */size` and no body; a satisfiable `(s, e)` yields
206 with exactly the bytes at offsets `s..e` and the matching headers. -/
def rangeStream (content : List Nat) (rangeHeader : Option String) : HttpResponse :=
  match rangeHeader with
  | none => fullResponse content
  | some h =>
    match parseRange h content.length with
    | .notARange => fullResponse content
    | .unsatisfiable =>
      { status := 416, body := [],
        contentRange := some ("bytes */" ++ Nat.repr content.length),
        contentLength := 0 }
    | .satisfiable s e =>
      { status := 206,
        body := (content.drop s).take (e - s + 1),
        contentRange := some
          ("bytes " ++ Nat.repr s ++ "-" ++ Nat.repr e ++ "/" ++ Nat.repr content.length),
        contentLength := e - s + 1 }

/-- Lookup of a file's bytes in an abstract filesystem given as an
association list from absolute segment paths to contents. -/
def lookupFile (fs : List (List (List Char) × List Nat)) (p : List (List Char)) :
    Option (List Nat) :=
  match fs with
  | [] => none
  | entry :: rest => if entry.1 = p then some entry.2 else lookupFile rest p

/-- The `GET /video/<subpath>` route: `_resolve_subpath`, the
exists/is-file check, then the range-aware stream.  A rejected or missing
path is a bodiless 404.  The filesystem is consulted only after resolution
succeeds. -/
def videoRoute (root : List (List Char)) (fs : List (List (List Char) × List Nat))
    (subpath : String) (rangeHeader : Option String) : HttpResponse :=
  match resolveSubpath root subpath with
  | none => { status := 404, body := [], contentRange := none, contentLength := 0 }
  | some p =>
    match lookupFile fs p with
    | none => { status := 404, body := [], contentRange := none, contentLength := 0 }
    | some content => rangeStream content rangeHeader

/-- The header text `bytes=<start>-<end>` with both offsets written as
decimal numerals. -/
def rangeHeaderOf (s e : Nat) : String :=
  ⟨['b', 'y', 't', 'e', 's', '='] ++ Nat.toDigits 10 s ++ '-' :: Nat.toDigits 10 e⟩

/-- The header text `bytes=<start>-` with an omitted end offset. -/
def openRangeHeaderOf (s : Nat) : String :=
  ⟨['b', 'y', 't', 'e', 's', '='] ++ Nat.toDigits 10 s ++ ['-']⟩

/-- The header text `bytes=-<suffixLength>`. -/
def suffixRangeHeaderOf (k : Nat) : String :=
  ⟨['b', 'y', 't', 'e', 's', '=', '-'] ++ Nat.toDigits 10 k⟩

/-! ### Decimal numerals round-trip through the digit parser -/

/-- The digit character of a value below ten parses back to that value. -/
theorem digitVal?_digitChar {d : Nat} (h : d < 10) :
    digitVal? (Nat.digitChar d) = some d := by
  interval_cases d <;> decide

/-- A digit character of a value below ten is neither a dash nor a comma. -/
theorem digitChar_not_punct {d : Nat} (h : d < 10) :
    Nat.digitChar d ≠ '-' ∧ Nat.digitChar d ≠ ',' := by
  interval_cases d <;> decide

/-- `Nat.toDigitsCore` prepends a block of decimal digit characters to its
accumulator; the block is nonempty whenever any fuel is available. -/
theorem toDigitsCore_shape (fuel : Nat) :
    ∀ n ds, ∃ pre, Nat.toDigitsCore 10 fuel n ds = pre ++ ds ∧
      (0 < fuel → pre ≠ []) ∧ ∀ c ∈ pre, ∃ d, d < 10 ∧ c = Nat.digitChar d := by
  induction fuel with
  | zero =>
    intro n ds
    exact ⟨[], rfl, by simp, by simp⟩
  | succ f ih =>
    intro n ds
    by_cases h0 : n / 10 = 0
    · refine ⟨[Nat.digitChar (n % 10)], ?_, by simp, ?_⟩
      · simp [Nat.toDigitsCore, h0]
      · intro c hc
        rcases List.mem_singleton.mp hc with rfl
        exact ⟨n % 10, Nat.mod_lt _ (by norm_num), rfl⟩
    · obtain ⟨pre, hpre, _, hdig⟩ := ih (n / 10) (Nat.digitChar (n % 10) :: ds)
      refine ⟨pre ++ [Nat.digitChar (n % 10)], ?_, by simp, ?_⟩
      · simp [Nat.toDigitsCore, h0, hpre]
      · intro c hc
        rcases List.mem_append.mp hc with hc | hc
        · exact hdig c hc
        · rcases List.mem_singleton.mp hc with rfl
          exact ⟨n % 10, Nat.mod_lt _ (by norm_num), rfl⟩

/-- Parsing the digit block that `Nat.toDigitsCore` emits continues on the
accumulator with the encoded value mixed into the running total. -/
theorem parseDigitsFrom_toDigitsCore (fuel : Nat) :
    ∀ n ds acc, n < 10 ^ fuel →
      ∃ m, parseDigitsFrom acc (Nat.toDigitsCore 10 fuel n ds) =
        parseDigitsFrom (acc * 10 ^ m + n) ds := by
  induction fuel with
  | zero =>
    intro n ds acc hn
    have hn0 : n = 0 := Nat.lt_one_iff.mp hn
    exact ⟨0, by simp [Nat.toDigitsCore, hn0]⟩
  | succ f ih =>
    intro n ds acc hn
    by_cases h0 : n / 10 = 0
    · have hlt : n < 10 := by omega
      have hmod : n % 10 = n := Nat.mod_eq_of_lt hlt
      refine ⟨1, ?_⟩
      simp only [Nat.toDigitsCore, h0, if_pos rfl]
      rw [hmod]
      simp [parseDigitsFrom, digitVal?_digitChar hlt, pow_one]
    · have hdiv : n / 10 < 10 ^ f := by
        rw [Nat.div_lt_iff_lt_mul (by norm_num)]
        calc n < 10 ^ (f + 1) := hn
        _ = 10 ^ f * 10 := by rw [pow_succ]
      obtain ⟨m, hm⟩ := ih (n / 10) (Nat.digitChar (n % 10) :: ds) acc hdiv
      refine ⟨m + 1, ?_⟩
      have hstep : parseDigitsFrom (acc * 10 ^ m + n / 10) (Nat.digitChar (n % 10) :: ds) =
          parseDigitsFrom ((acc * 10 ^ m + n / 10) * 10 + n % 10) ds := by
        simp [parseDigitsFrom, digitVal?_digitChar (Nat.mod_lt n (by norm_num))]
      have harith : (acc * 10 ^ m + n / 10) * 10 + n % 10 = acc * 10 ^ (m + 1) + n := by
        have hdm := Nat.div_add_mod n 10
        rw [pow_succ, ← Nat.mul_assoc]
        omega
      simp only [Nat.toDigitsCore, if_neg h0]
      rw [hm, hstep, harith]

/-- The decimal numeral of `n` is nonempty and consists of digit characters. -/
theorem toDigits_shape (n : Nat) :
    Nat.toDigits 10 n ≠ [] ∧ ∀ c ∈ Nat.toDigits 10 n, ∃ d, d < 10 ∧ c = Nat.digitChar d := by
  obtain ⟨pre, hpre, hne, hdig⟩ := toDigitsCore_shape (n + 1) n []
  have : Nat.toDigits 10 n = pre := by
    simpa [Nat.toDigits] using hpre
  rw [this]
  exact ⟨hne (Nat.succ_pos n), hdig⟩

/-- No dash occurs in a decimal numeral. -/
theorem dash_not_mem_toDigits (n : Nat) : '-' ∉ Nat.toDigits 10 n := by
  intro hmem
  obtain ⟨d, hd, hc⟩ := (toDigits_shape n).2 _ hmem
  exact (digitChar_not_punct hd).1 hc.symm

/-- No comma occurs in a decimal numeral. -/
theorem comma_not_mem_toDigits (n : Nat) : ',' ∉ Nat.toDigits 10 n := by
  intro hmem
  obtain ⟨d, hd, hc⟩ := (toDigits_shape n).2 _ hmem
  exact (digitChar_not_punct hd).2 hc.symm

/-- Round trip: the model's digit parser reads back the decimal numeral of
any natural number. -/
theorem parseDigits_toDigits (n : Nat) : parseDigits (Nat.toDigits 10 n) = some n := by
  have hlt : n < 10 ^ (n + 1) :=
    lt_of_lt_of_le (Nat.lt_pow_self (by norm_num) n)
      (Nat.pow_le_pow_right (by norm_num) (Nat.le_succ n))
  obtain ⟨m, hm⟩ := parseDigitsFrom_toDigitsCore (n + 1) n [] 0 hlt
  have hmain : parseDigitsFrom 0 (Nat.toDigits 10 n) = some n := by
    have : parseDigitsFrom (0 * 10 ^ m + n) [] = some n := by
      simp [parseDigitsFrom]
    simpa [Nat.toDigits] using hm.trans this
  cases hshape : Nat.toDigits 10 n with
  | nil => exact absurd hshape (toDigits_shape n).1
  | cons c cs =>
    rw [hshape] at hmain
    simpa [parseDigits] using hmain

/-- Splitting at the first dash of `xs ++ '-' :: ys` recovers the two
sides when `xs` itself is dash-free. -/
theorem splitDash_append {xs : List Char} (ys : List Char) (h : '-' ∉ xs) :
    splitDash (xs ++ '-' :: ys) = some (xs, ys) := by
  induction xs with
  | nil => simp [splitDash]
  | cons c cs ih =>
    have hc : c ≠ '-' := fun hc => h (hc ▸ List.mem_cons_self c cs)
    have hcs : '-' ∉ cs := fun hm => h (List.mem_cons_of_mem c hm)
    simp [splitDash, hc, ih hcs]

/-! ### Evaluating the range parser on well-formed headers -/

/-- A header made of the `bytes=` unit token and a comma-free body hands
the body to `parseRangeSpec`. -/
theorem parseRange_bytesUnit (body : List Char) (L : Nat)
    (h : ',' ∉ 'b' :: 'y' :: 't' :: 'e' :: 's' :: '=' :: body) :
    parseRange ⟨['b', 'y', 't', 'e', 's', '='] ++ body⟩ L = parseRangeSpec body L := by
  unfold parseRange
  rw [if_neg (show ¬ (',' ∈ (⟨['b', 'y', 't', 'e', 's', '='] ++ body⟩ : String).data) from h)]
  rw [if_pos (show List.take 6 ((⟨['b', 'y', 't', 'e', 's', '='] ++ body⟩ : String)).data
    = ['b', 'y', 't', 'e', 's', '='] from rfl)]
  rfl

/-- An explicit `bytes=s-e` header with `s ≤ e < fileSize` parses to the
requested interval. -/
theorem parseRange_explicit {s e L : Nat} (hse : s ≤ e) (heL : e < L) :
    parseRange (rangeHeaderOf s e) L = RangeResult.satisfiable s e := by
  have hcomma : ',' ∉ 'b' :: 'y' :: 't' :: 'e' :: 's' :: '=' ::
      (Nat.toDigits 10 s ++ '-' :: Nat.toDigits 10 e) := by
    simp only [List.mem_cons, List.mem_append]
    push_neg
    refine ⟨by decide, by decide, by decide, by decide, by decide, by decide,
      comma_not_mem_toDigits s, by decide, comma_not_mem_toDigits e⟩
  have hred : parseRange (rangeHeaderOf s e) L
      = parseRangeSpec (Nat.toDigits 10 s ++ '-' :: Nat.toDigits 10 e) L :=
    parseRange_bytesUnit _ _ hcomma
  have hd : splitDash (Nat.toDigits 10 s ++ '-' :: Nat.toDigits 10 e)
      = some (Nat.toDigits 10 s, Nat.toDigits 10 e) :=
    splitDash_append _ (dash_not_mem_toDigits s)
  have hne : Nat.toDigits 10 s ≠ [] := (toDigits_shape s).1
  have hne2 : Nat.toDigits 10 e ≠ [] := (toDigits_shape e).1
  have hLs : ¬ L ≤ s := by omega
  have hes : ¬ e < s := by omega
  have hmin : min e (L - 1) = e := by omega
  rw [hred]
  unfold parseRangeSpec
  rw [hd]
  simp [hne, hne2, parseDigits_toDigits, hLs, hes, hmin]

/-- An explicit `bytes=s-e` header whose start is at or past the file size
parses as unsatisfiable. -/
theorem parseRange_explicit_unsat {s e L : Nat} (hLs : L ≤ s) :
    parseRange (rangeHeaderOf s e) L = RangeResult.unsatisfiable := by
  have hcomma : ',' ∉ 'b' :: 'y' :: 't' :: 'e' :: 's' :: '=' ::
      (Nat.toDigits 10 s ++ '-' :: Nat.toDigits 10 e) := by
    simp only [List.mem_cons, List.mem_append]
    push_neg
    refine ⟨by decide, by decide, by decide, by decide, by decide, by decide,
      comma_not_mem_toDigits s, by decide, comma_not_mem_toDigits e⟩
  have hred : parseRange (rangeHeaderOf s e) L
      = parseRangeSpec (Nat.toDigits 10 s ++ '-' :: Nat.toDigits 10 e) L :=
    parseRange_bytesUnit _ _ hcomma
  have hd : splitDash (Nat.toDigits 10 s ++ '-' :: Nat.toDigits 10 e)
      = some (Nat.toDigits 10 s, Nat.toDigits 10 e) :=
    splitDash_append _ (dash_not_mem_toDigits s)
  have hne : Nat.toDigits 10 s ≠ [] := (toDigits_shape s).1
  rw [hred]
  unfold parseRangeSpec
  rw [hd]
  simp [hne, parseDigits_toDigits, hLs]
  split <;> rfl

/-- An open-ended `bytes=s-` header whose start is at or past the file size
parses as unsatisfiable. -/
theorem parseRange_open_unsat {s L : Nat} (hLs : L ≤ s) :
    parseRange (openRangeHeaderOf s) L = RangeResult.unsatisfiable := by
  have hcomma : ',' ∉ 'b' :: 'y' :: 't' :: 'e' :: 's' :: '=' ::
      (Nat.toDigits 10 s ++ ['-']) := by
    simp only [List.mem_cons, List.mem_append]
    push_neg
    refine ⟨by decide, by decide, by decide, by decide, by decide, by decide,
      comma_not_mem_toDigits s, by decide⟩
  have hred : parseRange (openRangeHeaderOf s) L
      = parseRangeSpec (Nat.toDigits 10 s ++ ['-']) L :=
    parseRange_bytesUnit _ _ hcomma
  have hd : splitDash (Nat.toDigits 10 s ++ '-' :: ([] : List Char))
      = some (Nat.toDigits 10 s, []) :=
    splitDash_append _ (dash_not_mem_toDigits s)
  have hne : Nat.toDigits 10 s ≠ [] := (toDigits_shape s).1
  rw [hred]
  unfold parseRangeSpec
  rw [show (Nat.toDigits 10 s ++ ['-'] : List Char)
    = Nat.toDigits 10 s ++ '-' :: ([] : List Char) from rfl, hd]
  simp [hne, parseDigits_toDigits, hLs]

/-- A suffix `bytes=-k` header with a positive suffix length against a
nonempty file parses to the final `k` bytes (clamped at the start of the
file); a zero suffix length is rejected as unsatisfiable. -/
theorem parseRange_suffix {k L : Nat} (hL : 0 < L) (hk : 0 < k) :
    parseRange (suffixRangeHeaderOf k) L = RangeResult.satisfiable (L - k) (L - 1) ∧
    parseRange (suffixRangeHeaderOf 0) L = RangeResult.unsatisfiable := by
  constructor
  · have hcomma : ',' ∉ 'b' :: 'y' :: 't' :: 'e' :: 's' :: '=' ::
        ('-' :: Nat.toDigits 10 k) := by
      simp only [List.mem_cons]
      push_neg
      refine ⟨by decide, by decide, by decide, by decide, by decide, by decide, by decide,
        comma_not_mem_toDigits k⟩
    have hred : parseRange (suffixRangeHeaderOf k) L
        = parseRangeSpec ('-' :: Nat.toDigits 10 k) L :=
      parseRange_bytesUnit _ _ hcomma
    rw [hred]
    unfold parseRangeSpec
    rw [show splitDash ('-' :: Nat.toDigits 10 k) = some ([], Nat.toDigits 10 k) from rfl]
    simp [parseDigits_toDigits, Nat.pos_iff_ne_zero.mp hk, Nat.pos_iff_ne_zero.mp hL]
  · have hcomma : ',' ∉ 'b' :: 'y' :: 't' :: 'e' :: 's' :: '=' ::
        ('-' :: Nat.toDigits 10 0) := by
      simp only [List.mem_cons]
      push_neg
      refine ⟨by decide, by decide, by decide, by decide, by decide, by decide, by decide,
        comma_not_mem_toDigits 0⟩
    have hred : parseRange (suffixRangeHeaderOf 0) L
        = parseRangeSpec ('-' :: Nat.toDigits 10 0) L :=
      parseRange_bytesUnit _ _ hcomma
    rw [hred]
    unfold parseRangeSpec
    rw [show splitDash ('-' :: Nat.toDigits 10 0) = some ([], Nat.toDigits 10 0) from rfl]
    simp [parseDigits_toDigits]

/-! ### Thumbnail cache path derivation, embedding `_thumbnail_path` -/

/-- The stem of a final path segment, as `PurePosixPath(...).stem` computes
it: the name up to its last dot, except that a dot in first or last
position starts no suffix (hidden files and trailing dots keep their full
name). -/
def stemOf (name : List Char) : List Char :=
  match name.reverse.findIdx? (fun c => c = '.') with
  | none => name
  | some j =>
    if j = 0 then name
    else if j = name.length - 1 then name
    else name.take (name.length - 1 - j)

/-- The final segment of a segment list, or the empty name when there is
none (matching `PurePosixPath("").name == ""`). -/
def lastName (parts : List (List Char)) : List Char :=
  parts.getLast?.getD []

/-- Embedding of `_thumbnail_path` from `webapp/app.py`: reject absolute
subpaths and subpaths with a `".."` segment with 404 (`none`); otherwise
mirror the parent directories of the subpath under the thumbnail root and
replace the final segment by its stem with the fixed `.jpg` extension. -/
def thumbnailPath (thumbRoot : List (List Char)) (subpath : String) :
    Option (List (List Char)) :=
  let parts := pathParts subpath.data
  if startsWithSlash subpath.data = true ∨ ['.', '.'] ∈ parts then none
  else some (thumbRoot ++ parts.dropLast ++ [stemOf (lastName parts) ++ ['.', 'j', 'p', 'g']])

/-! ### Thumbnail route and generation, embedding `thumbnail` and
`_generate_thumbnail`

The handler's interaction with the filesystem and the subprocess is
captured by an environment: the source video's modification time, the
cached thumbnail's modification time when one exists, whether `mkdir`
raises `PermissionError`, whether the freshness `stat` comparison raises
`OSError`, the outcome of the `ffmpeg` invocation, the modification time a
successful generation stamps on the installed file, and whether serving
the file raises `PermissionError`.  Physical-time facts (a file's mtime
never exceeds the current clock; a fresh write is stamped no earlier than
the source's last modification) enter the theorems as hypotheses on the
environment. -/

/-- Outcome of the `ffmpeg` subprocess run inside `_generate_thumbnail`:
success, executable missing (`FileNotFoundError`), non-zero exit
(`CalledProcessError`), or a `PermissionError` escaping the function. -/
inductive GenOutcome where
  | ok
  | notFound
  | exitError
  | permError
deriving DecidableEq, Repr

/-- Filesystem and subprocess facts one thumbnail request observes. -/
structure ThumbEnv where
  videoMtime : Nat
  thumb : Option Nat
  mkdirPerm : Bool
  statErr : Bool
  gen : GenOutcome
  genWriteTime : Nat
  servePerm : Bool
deriving DecidableEq, Repr

/-- The HTTP outcome of the thumbnail route: serve the cached file with
the given modification time, or abort with 404 or 403. -/
inductive ThumbResp where
  | serve (mtime : Nat)
  | notFound404
  | forbidden403
deriving DecidableEq, Repr

/-- Result of one thumbnail request: the response, the final state of the
cached thumbnail, whether a temporary file remains in the cache directory,
whether the generator was invoked, and whether a permission failure was
logged. -/
structure ThumbResult where
  resp : ThumbResp
  thumb : Option Nat
  tmpLeft : Bool
  generated : Bool
  loggedPermission : Bool
deriving DecidableEq, Repr

/-- The staleness check of the thumbnail route: regenerate when no
thumbnail exists, when the `stat` comparison raises `OSError`, or when the
thumbnail is strictly older than the source video. -/
def thumbNeedsGenerate (e : ThumbEnv) : Bool :=
  match e.thumb with
  | none => true
  | some tm => e.statErr || decide (tm < e.videoMtime)

/-- Embedding of `_generate_thumbnail`: returns the resulting cached
thumbnail, whether a temporary file is left in the cache directory, and
whether a `PermissionError` escaped.  Success atomically replaces the
destination with the freshly written file; `FileNotFoundError` and
`CalledProcessError` are caught, the temporary file is unlinked, and the
prior destination is untouched; a `PermissionError` from the subprocess is
not caught, so the temporary file survives. -/
def generateThumbnail (thumb : Option Nat) (gen : GenOutcome) (writeTime : Nat) :
    Option Nat × Bool × Bool :=
  match gen with
  | .ok => (some writeTime, false, false)
  | .notFound => (thumb, false, false)
  | .exitError => (thumb, false, false)
  | .permError => (thumb, true, true)

/-- Embedding of the `thumbnail` route body from `webapp/app.py` (after
the source-video existence checks): create the cache directory, run the
staleness check, generate when needed, then 404 when no thumbnail exists
or serve it; any `PermissionError` is logged and becomes 403. -/
def thumbnailHandler (e : ThumbEnv) : ThumbResult :=
  if e.mkdirPerm then
    { resp := .forbidden403, thumb := e.thumb, tmpLeft := false,
      generated := false, loggedPermission := true }
  else
    let needs := thumbNeedsGenerate e
    let st := if needs then generateThumbnail e.thumb e.gen e.genWriteTime
              else (e.thumb, false, false)
    if st.2.2 then
      { resp := .forbidden403, thumb := st.1, tmpLeft := st.2.1,
        generated := needs, loggedPermission := true }
    else
      match st.1 with
      | none =>
        { resp := .notFound404, thumb := none, tmpLeft := st.2.1,
          generated := needs, loggedPermission := false }
      | some tm =>
        if e.servePerm then
          { resp := .forbidden403, thumb := some tm, tmpLeft := st.2.1,
            generated := needs, loggedPermission := true }
        else
          { resp := .serve tm, thumb := some tm, tmpLeft := st.2.1,
            generated := needs, loggedPermission := false }

/-! ### Claim theorems -/

/-- C1: a request subpath containing a `..` segment or beginning with `/` is
rejected with status 404 by path resolution before any filesystem access
(the response is the same for every filesystem), and any path the resolver
does return extends the configured media root by segments none of which is
`..` or empty, so the resolver never returns a path outside the root. -/
theorem video_path_safety
    (root : List (List Char)) (fs fs2 : List (List (List Char) × List Nat))
    (sp sp2 : String) (rangeHeader : Option String) (r : List (List Char))
    (hbad : ['.', '.'] ∈ splitSlash sp.data ∨ startsWithSlash sp.data = true)
    (hres : resolveSubpath root sp2 = some r) :
    (videoRoute root fs sp rangeHeader).status = 404 ∧
    videoRoute root fs sp rangeHeader = videoRoute root fs2 sp rangeHeader ∧
    resolveSubpath root sp = none ∧
    ∃ rest, r = root ++ rest ∧ ∀ seg ∈ rest, seg ≠ ['.', '.'] ∧ seg ≠ [] := by
  have hnone := @resolveSubpath_rejects root sp hbad
  refine ⟨?_, ?_, hnone, resolveSubpath_contained hres⟩
  · simp [videoRoute, hnone]
  · simp [videoRoute, hnone]

/-- C1 witness: the traversal request of the spec's concrete scenario. -/
theorem video_path_safety_witness :
    (videoRoute [] [] "../etc/passwd" none).status = 404 ∧
    resolveSubpath [] "../etc/passwd" = none := by
  have h := video_path_safety [] [] [] "../etc/passwd" "" none [] (by decide) (by decide)
  exact ⟨h.1, h.2.2.1⟩

/-- C2: for an existing file and a `bytes=s-e` header with
`s ≤ e < fileSize`, the `GET /video/<subpath>` response has status 206,
`Content-Range: bytes s-e/fileSize`, `Content-Length: e - s + 1`, and a
body of exactly the bytes at offsets `s..e` inclusive. -/
theorem video_range_request_partial_content
    (root : List (List Char)) (fs : List (List (List Char) × List Nat))
    (sp : String) (p : List (List Char)) (content : List Nat) (s e : Nat)
    (hres : resolveSubpath root sp = some p)
    (hfile : lookupFile fs p = some content)
    (hse : s ≤ e) (heL : e < content.length) :
    (videoRoute root fs sp (some (rangeHeaderOf s e))).status = 206 ∧
    (videoRoute root fs sp (some (rangeHeaderOf s e))).contentLength = e - s + 1 ∧
    (videoRoute root fs sp (some (rangeHeaderOf s e))).contentRange =
      some ("bytes " ++ Nat.repr s ++ "-" ++ Nat.repr e ++ "/" ++ Nat.repr content.length) ∧
    (videoRoute root fs sp (some (rangeHeaderOf s e))).body.length = e - s + 1 ∧
    ∀ i, i < e - s + 1 →
      (videoRoute root fs sp (some (rangeHeaderOf s e))).body[i]? = content[s + i]? := by
  have hroute : videoRoute root fs sp (some (rangeHeaderOf s e))
      = rangeStream content (some (rangeHeaderOf s e)) := by
    simp [videoRoute, hres, hfile]
  have hparse := parseRange_explicit hse heL
  have hstream : rangeStream content (some (rangeHeaderOf s e)) =
      { status := 206,
        body := (content.drop s).take (e - s + 1),
        contentRange := some ("bytes " ++ Nat.repr s ++ "-" ++ Nat.repr e ++ "/"
          ++ Nat.repr content.length),
        contentLength := e - s + 1 } := by
    simp [rangeStream, hparse]
  rw [hroute, hstream]
  refine ⟨rfl, rfl, rfl, ?_, ?_⟩
  · simp only [List.length_take, List.length_drop]
    omega
  · intro i hi
    simp only
    rw [List.getElem?_take_of_lt hi, List.getElem?_drop]

/-- C2 witness: the spec's concrete scenario — a six-byte file `abcdef`
with `Range: bytes=2-4` yields 206, body `cde`, `Content-Range: bytes
2-4/6` and `Content-Length: 3`. -/
theorem video_range_request_partial_content_witness :
    (videoRoute [] [([['m', 'o', 'v', 'i', 'e', '.', 'm', 'p', '4']],
        [97, 98, 99, 100, 101, 102])] "movie.mp4" (some (rangeHeaderOf 2 4))).status = 206 ∧
    (videoRoute [] [([['m', 'o', 'v', 'i', 'e', '.', 'm', 'p', '4']],
        [97, 98, 99, 100, 101, 102])] "movie.mp4" (some (rangeHeaderOf 2 4))).body
      = [99, 100, 101] ∧
    (videoRoute [] [([['m', 'o', 'v', 'i', 'e', '.', 'm', 'p', '4']],
        [97, 98, 99, 100, 101, 102])] "movie.mp4" (some (rangeHeaderOf 2 4))).contentRange
      = some "bytes 2-4/6" ∧
    (videoRoute [] [([['m', 'o', 'v', 'i', 'e', '.', 'm', 'p', '4']],
        [97, 98, 99, 100, 101, 102])] "movie.mp4" (some (rangeHeaderOf 2 4))).contentLength
      = 3 := by
  have h := video_range_request_partial_content []
    [([['m', 'o', 'v', 'i', 'e', '.', 'm', 'p', '4']], [97, 98, 99, 100, 101, 102])]
    "movie.mp4" [['m', 'o', 'v', 'i', 'e', '.', 'm', 'p', '4']]
    [97, 98, 99, 100, 101, 102] 2 4 (by decide) (by decide) (by decide) (by decide)
  exact ⟨h.1, by decide, by decide, h.2.1⟩

/-- C3: a range header whose start offset is at or past the file size —
whether the end is explicit (`bytes=s-e`) or omitted (`bytes=s-`) — is
unsatisfiable: the response has status 416, header
`Content-Range: bytes */fileSize`, and no body. -/
theorem video_range_unsatisfiable_416 (content : List Nat) (s e : Nat)
    (h : content.length ≤ s) :
    rangeStream content (some (rangeHeaderOf s e)) =
      { status := 416, body := [],
        contentRange := some ("bytes */" ++ Nat.repr content.length),
        contentLength := 0 } ∧
    rangeStream content (some (openRangeHeaderOf s)) =
      { status := 416, body := [],
        contentRange := some ("bytes */" ++ Nat.repr content.length),
        contentLength := 0 } := by
  constructor
  · simp [rangeStream, parseRange_explicit_unsat h]
  · simp [rangeStream, parseRange_open_unsat h]

/-- C3 witness: the spec's concrete scenario — `Range: bytes=999-1000`
against a 6-byte file yields 416 with `Content-Range: bytes */6`. -/
theorem video_range_unsatisfiable_416_witness :
    rangeStream [97, 98, 99, 100, 101, 102] (some (rangeHeaderOf 999 1000)) =
      { status := 416, body := [], contentRange := some "bytes */6",
        contentLength := 0 } := by
  have h := video_range_unsatisfiable_416 [97, 98, 99, 100, 101, 102] 999 1000 (by decide)
  rw [h.1]
  decide

/-- C4: for a nonempty file and a positive suffix length `k`, the header
`bytes=-k` is interpreted as the interval from `max(fileSize - k, 0)` to
`fileSize - 1`, and a suffix length of zero is rejected. -/
theorem suffix_range_interpretation (L k : Nat) (hL : 0 < L) (hk : 0 < k) :
    parseRange (suffixRangeHeaderOf k) L =
      RangeResult.satisfiable (max (L - k) 0) (L - 1) ∧
    parseRange (suffixRangeHeaderOf 0) L = RangeResult.unsatisfiable := by
  have h := parseRange_suffix hL hk
  rw [Nat.max_zero]
  exact h

/-- C4 witness: `bytes=-10` against a 6-byte file asks for bytes 0 to 5,
and `bytes=-0` is unsatisfiable. -/
theorem suffix_range_interpretation_witness :
    parseRange (suffixRangeHeaderOf 10) 6 = RangeResult.satisfiable 0 5 ∧
    parseRange (suffixRangeHeaderOf 0) 6 = RangeResult.unsatisfiable := by
  have h := suffix_range_interpretation 6 10 (by decide) (by decide)
  exact ⟨h.1, h.2⟩

/-- C5: a `Range` header that does not begin with the unit token `bytes=`,
or that contains a comma, is treated as absent: the response is the full,
unranged 200 transfer of the complete file, never an error status. -/
theorem unrecognized_range_full_response (content : List Nat) (h : String)
    (hdr : h.data.take 6 ≠ ['b', 'y', 't', 'e', 's', '='] ∨ ',' ∈ h.data) :
    rangeStream content (some h) = fullResponse content ∧
    (rangeStream content (some h)).status = 200 ∧
    (rangeStream content (some h)).body = content := by
  have hparse : parseRange h content.length = RangeResult.notARange := by
    unfold parseRange
    rcases hdr with hdr | hdr
    · by_cases hc : ',' ∈ h.data
      · rw [if_pos hc]
      · rw [if_neg hc, if_neg hdr]
    · rw [if_pos hdr]
  refine ⟨?_, ?_, ?_⟩ <;> simp [rangeStream, hparse, fullResponse]

/-- C5 witness: a header with the wrong unit token, and one with multiple
ranges, both fall back to the full 200 transfer. -/
theorem unrecognized_range_full_response_witness :
    rangeStream [7, 8, 9] (some "items=0-1") = fullResponse [7, 8, 9] ∧
    (rangeStream [7, 8, 9] (some "bytes=0-1,2-2")).status = 200 := by
  refine ⟨(unrecognized_range_full_response [7, 8, 9] "items=0-1" (Or.inl (by decide))).1,
    (unrecognized_range_full_response [7, 8, 9] "bytes=0-1,2-2" (Or.inr (by decide))).2.1⟩

/-- C6: with the modification times observable (no `OSError` during the
check) and no permission failures, the cached thumbnail is served without
invoking generation exactly when it exists and its modification time is at
least the source's; a fresh cached thumbnail is served as-is; and whenever
generation is invoked and succeeds with a write stamped no earlier than
the source's modification time, the resulting thumbnail's modification
time is at least the source's. -/
theorem thumbnail_freshness (e : ThumbEnv)
    (hm : e.mkdirPerm = false) (hs : e.statErr = false) (hp : e.servePerm = false) :
    ((thumbnailHandler e).generated = false ↔
      ∃ tm, e.thumb = some tm ∧ e.videoMtime ≤ tm) ∧
    (∀ tm, e.thumb = some tm → e.videoMtime ≤ tm →
      (thumbnailHandler e).resp = ThumbResp.serve tm ∧
      (thumbnailHandler e).generated = false) ∧
    (e.gen = GenOutcome.ok → e.videoMtime ≤ e.genWriteTime →
      (thumbnailHandler e).generated = true →
      ∃ t1, (thumbnailHandler e).thumb = some t1 ∧ e.videoMtime ≤ t1) := by
  obtain ⟨v, th, mk, stE, g, w, sv⟩ := e
  change mk = false at hm
  change stE = false at hs
  change sv = false at hp
  subst hm
  subst hs
  subst hp
  refine ⟨?_, ?_, ?_⟩
  · cases th with
    | none =>
      cases g <;> simp [thumbnailHandler, thumbNeedsGenerate, generateThumbnail]
    | some tm =>
      by_cases hlt : tm < v
      · cases g <;>
          simp [thumbnailHandler, thumbNeedsGenerate, generateThumbnail, hlt]
      · simp [thumbnailHandler, thumbNeedsGenerate, hlt]
        omega
  · intro tm htm hle
    change th = some tm at htm
    subst htm
    change v ≤ tm at hle
    have hnlt : ¬ tm < v := by omega
    simp [thumbnailHandler, thumbNeedsGenerate, hnlt]
  · intro hg hw hgen
    change g = GenOutcome.ok at hg
    subst hg
    cases th with
    | none =>
      exact ⟨w, by simp [thumbnailHandler, thumbNeedsGenerate, generateThumbnail], hw⟩
    | some tm =>
      by_cases hlt : tm < v
      · exact ⟨w, by simp [thumbnailHandler, thumbNeedsGenerate, generateThumbnail, hlt], hw⟩
      · exfalso
        simp [thumbnailHandler, thumbNeedsGenerate, hlt] at hgen

/-- C6 witness: a fresh cached thumbnail (mtime 9 against source mtime 5)
is served without regeneration. -/
theorem thumbnail_freshness_witness :
    (thumbnailHandler ⟨5, some 9, false, false, GenOutcome.ok, 11, false⟩).resp
      = ThumbResp.serve 9 ∧
    (thumbnailHandler ⟨5, some 9, false, false, GenOutcome.ok, 11, false⟩).generated
      = false := by
  have h := thumbnail_freshness ⟨5, some 9, false, false, GenOutcome.ok, 11, false⟩
    rfl rfl rfl
  exact h.2.1 9 rfl (by decide)

/-- C7 counterexample: when a stale prior thumbnail exists (thumbnail
mtime 1, source mtime 2) and generation fails because the extractor is
missing, the route serves the stale thumbnail with a 200-style response,
not the claimed 404. -/
theorem generation_failure_stale_served :
    (thumbnailHandler ⟨2, some 1, false, false, GenOutcome.notFound, 0, false⟩).generated
      = true ∧
    (thumbnailHandler ⟨2, some 1, false, false, GenOutcome.notFound, 0, false⟩).resp
      = ThumbResp.serve 1 ∧
    (thumbnailHandler ⟨2, some 1, false, false, GenOutcome.notFound, 0, false⟩).resp
      ≠ ThumbResp.notFound404 := by
  decide

/-- C7 (amended): on every generation failure by a missing extractor or a
non-zero exit, the temporary file is removed, any previously existing
thumbnail at the final cache path is left unchanged, and when no prior
thumbnail existed the request is answered with 404 (never a 5xx or an
unhandled exception) and no file remains at the cache path; when a prior
thumbnail existed it is served unchanged instead of a 404. -/
theorem generation_failure_safe (e : ThumbEnv)
    (hm : e.mkdirPerm = false)
    (hg : e.gen = GenOutcome.notFound ∨ e.gen = GenOutcome.exitError) :
    (thumbnailHandler e).tmpLeft = false ∧
    (thumbnailHandler e).thumb = e.thumb ∧
    (e.thumb = none → (thumbnailHandler e).resp = ThumbResp.notFound404 ∧
      (thumbnailHandler e).thumb = none) ∧
    (∀ tm, e.thumb = some tm → e.servePerm = false →
      (thumbnailHandler e).resp = ThumbResp.serve tm) := by
  obtain ⟨v, th, mk, stE, g, w, sv⟩ := e
  change mk = false at hm
  subst hm
  have hgen : generateThumbnail th g w = (th, false, false) := by
    rcases hg with hg | hg <;> (change _ = _ at hg; subst hg) <;> rfl
  cases th with
  | none =>
    refine ⟨?_, ?_, ?_, ?_⟩ <;>
      simp [thumbnailHandler, thumbNeedsGenerate, hgen]
  | some tm =>
    by_cases hlt : tm < v <;> cases stE <;> cases sv <;>
      refine ⟨?_, ?_, ?_, ?_⟩ <;>
      simp [thumbnailHandler, thumbNeedsGenerate, hgen, hlt]

/-- C7 witness for the amended claim: extractor missing and no prior
thumbnail — no temporary file remains and the response is 404. -/
theorem generation_failure_safe_witness :
    (thumbnailHandler ⟨2, none, false, false, GenOutcome.notFound, 0, false⟩).tmpLeft
      = false ∧
    (thumbnailHandler ⟨2, none, false, false, GenOutcome.notFound, 0, false⟩).resp
      = ThumbResp.notFound404 := by
  have h := generation_failure_safe ⟨2, none, false, false, GenOutcome.notFound, 0, false⟩
    rfl (Or.inl rfl)
  exact ⟨h.1, (h.2.2.1 rfl).1⟩

/-- C8: every `PermissionError` the thumbnail route can observe — from
creating the cache directory, from the generation subprocess, or from
serving the cached file — is answered with status 403 and logged; moreover
the route responds 403 exactly when a permission failure was logged, so no
permission error propagates unhandled. -/
theorem permission_error_becomes_403 (e : ThumbEnv) :
    (e.mkdirPerm = true →
      (thumbnailHandler e).resp = ThumbResp.forbidden403 ∧
      (thumbnailHandler e).loggedPermission = true) ∧
    (e.mkdirPerm = false → thumbNeedsGenerate e = true → e.gen = GenOutcome.permError →
      (thumbnailHandler e).resp = ThumbResp.forbidden403 ∧
      (thumbnailHandler e).loggedPermission = true) ∧
    (∀ tm, e.mkdirPerm = false →
      (thumbNeedsGenerate e = true → e.gen ≠ GenOutcome.permError) →
      (thumbnailHandler e).thumb = some tm → e.servePerm = true →
      (thumbnailHandler e).resp = ThumbResp.forbidden403 ∧
      (thumbnailHandler e).loggedPermission = true) ∧
    ((thumbnailHandler e).resp = ThumbResp.forbidden403 ↔
      (thumbnailHandler e).loggedPermission = true) := by
  obtain ⟨v, th, mk, stE, g, w, sv⟩ := e
  cases mk
  case true =>
    refine ⟨fun _ => by simp [thumbnailHandler], fun hm => by simp at hm,
      fun tm hm => by simp at hm, by simp [thumbnailHandler]⟩
  case false =>
  cases th with
  | none =>
    cases stE <;> cases sv <;> cases g <;>
      refine ⟨fun hm => by simp at hm, ?_, ?_, ?_⟩ <;>
      simp [thumbnailHandler, thumbNeedsGenerate, generateThumbnail]
  | some tm =>
    by_cases hlt : tm < v <;> cases stE <;> cases sv <;> cases g <;>
      refine ⟨fun hm => by simp at hm, ?_, ?_, ?_⟩ <;>
      simp [thumbnailHandler, thumbNeedsGenerate, generateThumbnail, hlt]

/-- C8 witness: a `PermissionError` while creating the cache directory is
answered with 403 and logged. -/
theorem permission_error_becomes_403_witness :
    (thumbnailHandler ⟨1, none, true, false, GenOutcome.ok, 0, false⟩).resp
      = ThumbResp.forbidden403 ∧
    (thumbnailHandler ⟨1, none, true, false, GenOutcome.ok, 0, false⟩).loggedPermission
      = true :=
  (permission_error_becomes_403 ⟨1, none, true, false, GenOutcome.ok, 0, false⟩).1 rfl

/-- C9: `_thumbnail_path` rejects absolute subpaths and subpaths with a
`..` segment with 404; on every accepted subpath it returns exactly the
thumbnail root followed by the subpath's parent directory segments and the
final segment's stem with the fixed `.jpg` extension — a pure function of
the subpath — and that location is always lexically inside the thumbnail
root (every added segment is nonempty and none is `..`). -/
theorem thumbnail_path_derivation (root : List (List Char)) (sp : String) :
    ((startsWithSlash sp.data = true ∨ ['.', '.'] ∈ pathParts sp.data) →
      thumbnailPath root sp = none) ∧
    (∀ r, thumbnailPath root sp = some r →
      r = root ++ (pathParts sp.data).dropLast ++
        [stemOf (lastName (pathParts sp.data)) ++ ['.', 'j', 'p', 'g']] ∧
      ∃ rest, r = root ++ rest ∧ rest ≠ [] ∧
        ∀ seg ∈ rest, seg ≠ ['.', '.'] ∧ seg ≠ []) := by
  constructor
  · intro hbad
    unfold thumbnailPath
    rw [if_pos hbad]
  · intro r hr
    unfold thumbnailPath at hr
    by_cases hbad : startsWithSlash sp.data = true ∨ ['.', '.'] ∈ pathParts sp.data
    · rw [if_pos hbad] at hr
      cases hr
    · rw [if_neg hbad] at hr
      have hr' := (Option.some_injective _ hr).symm
      refine ⟨hr', (pathParts sp.data).dropLast ++
        [stemOf (lastName (pathParts sp.data)) ++ ['.', 'j', 'p', 'g']], ?_, by simp, ?_⟩
      · rw [hr', List.append_assoc]
      · intro seg hseg
        rcases List.mem_append.mp hseg with hseg | hseg
        · have hmem : seg ∈ pathParts sp.data := List.dropLast_subset _ hseg
          have hs := mem_pathParts hmem
          exact ⟨fun hdd => hbad (Or.inr (hdd ▸ hmem)), hs.2.1⟩
        · rcases List.mem_singleton.mp hseg with rfl
          constructor
          · intro hdd
            have hlen := congrArg List.length hdd
            simp at hlen
          · simp

/-- C9 witness: a nested video subpath maps into the thumbnail root with
the directory mirrored and the stem given a `.jpg` extension; a traversal
subpath is rejected. -/
theorem thumbnail_path_derivation_witness :
    thumbnailPath [['t']] "shows/pilot.mp4"
      = some [['t'], ['s', 'h', 'o', 'w', 's'], ['p', 'i', 'l', 'o', 't', '.', 'j', 'p', 'g']] ∧
    thumbnailPath [['t']] "../x.mp4" = none := by
  refine ⟨by decide, (thumbnail_path_derivation [['t']] "../x.mp4").1 (Or.inr (by decide))⟩

/-- C10: the thumbnail cache location depends only on the subpath's parent
directories and the final segment's stem, so two distinct accepted
subpaths in the same directory whose final segments differ only in their
extension derive the identical cache path — the mapping is not
injective and the two thumbnails overwrite one another. -/
theorem thumbnail_path_collision (root : List (List Char)) (sp1 sp2 : String)
    (h1 : startsWithSlash sp1.data = false) (h2 : startsWithSlash sp2.data = false)
    (hd1 : ['.', '.'] ∉ pathParts sp1.data) (hd2 : ['.', '.'] ∉ pathParts sp2.data)
    (hparent : (pathParts sp1.data).dropLast = (pathParts sp2.data).dropLast)
    (hstem : stemOf (lastName (pathParts sp1.data))
      = stemOf (lastName (pathParts sp2.data))) :
    thumbnailPath root sp1 = thumbnailPath root sp2 := by
  unfold thumbnailPath
  rw [if_neg (by simp [h1, hd1]), if_neg (by simp [h2, hd2])]
  rw [hparent, hstem]

/-- C10 witness: `foo.mp4` and `foo.webm` are distinct sources mapping to
the same cache file `foo.jpg`. -/
theorem thumbnail_path_collision_witness :
    thumbnailPath [['t']] "foo.mp4" = thumbnailPath [['t']] "foo.webm" ∧
    "foo.mp4" ≠ "foo.webm" ∧
    thumbnailPath [['t']] "foo.mp4" = some [['t'], ['f', 'o', 'o', '.', 'j', 'p', 'g']] := by
  refine ⟨thumbnail_path_collision [['t']] "foo.mp4" "foo.webm"
    (by decide) (by decide) (by decide) (by decide) (by decide) (by decide),
    by decide, by decide⟩
